import Mathlib

/-!
Shallow embedding of the algorithm-complexity checker (src/main.py).

The program reads delimited (size, duration) records, resamples them onto an
integer-cast linspace grid, min-max normalizes the resampled durations,
compares them by least squares against eight catalog shapes evaluated on the
index grid 1..sample_count, fits the winning shape (scipy curve_fit, modelled
abstractly), and optionally evaluates the fitted function at a query point.

Machine floats are modelled exactly: the data pipeline (parsing, linspace,
the integer cast, np.interp, min-max normalization) is over `ℚ`, and the
shape comparison, which involves `log2`, is over `ℝ` via `Real.logb 2`.
-/

/-- Python str.split with a single-character separator: splits the character
list at every occurrence of the separator, keeping empty fields, exactly as
`line.split(delimiter)` does for a one-character delimiter. -/
def splitOnChar (c : Char) : List Char → List (List Char)
  | [] => [[]]
  | a :: t =>
    if a = c then [] :: splitOnChar c t
    else
      match splitOnChar c t with
      | [] => [[a]]
      | f :: r => (a :: f) :: r

/-- Whitespace characters stripped by Python int()/float() literal parsing. -/
def isPySpace (c : Char) : Bool :=
  c = ' ' || c = '\t' || c = '\n' || c = '\r' || c = '\x0b' || c = '\x0c'

/-- Strip leading and trailing whitespace, as Python numeric parsing does. -/
def trimChars (l : List Char) : List Char :=
  ((l.dropWhile isPySpace).reverse.dropWhile isPySpace).reverse

/-- Value of a list of decimal digit characters. -/
def digitsVal (l : List Char) : ℕ :=
  l.foldl (fun n c => 10 * n + (c.toNat - 48)) 0

/-- Nonempty and all decimal digits. -/
def isDigits (l : List Char) : Bool :=
  !l.isEmpty && l.all Char.isDigit

/-- Python int(s) on a decimal literal: optional surrounding whitespace,
optional sign, then digits (underscore grouping is not modelled). -/
def parsePyInt (l : List Char) : Option ℤ :=
  match trimChars l with
  | '+' :: d => if isDigits d then some ((digitsVal d : ℤ)) else none
  | '-' :: d => if isDigits d then some (-(digitsVal d : ℤ)) else none
  | d => if isDigits d then some ((digitsVal d : ℤ)) else none

/-- Digit-level decomposition of an unsigned decimal float literal: digits
with an optional point and an optional fractional part, decomposed into the
integer-part value, the fractional-part value and the fractional digit
count. -/
def floatParts (l : List Char) : Option (ℕ × ℕ × ℕ) :=
  match splitOnChar '.' l with
  | [ip] => if isDigits ip then some (digitsVal ip, 0, 0) else none
  | [ip, fp] =>
    if ip.isEmpty && fp.isEmpty then none
    else if ip.all Char.isDigit && fp.all Char.isDigit then
      some (digitsVal ip, digitsVal fp, fp.length)
    else none
  | _ => none

/-- Exact rational value of a decomposed decimal literal. -/
def partsToRat (p : ℕ × ℕ × ℕ) : ℚ :=
  (p.1 : ℚ) + (p.2.1 : ℚ) / (10 : ℚ) ^ p.2.2

/-- Python float(s) on a decimal literal (exponents and inf/nan forms are not
modelled; the repository's inputs are plain decimals). -/
def parsePyFloat (l : List Char) : Option ℚ :=
  match trimChars l with
  | '+' :: d => (floatParts d).map partsToRat
  | '-' :: d => (floatParts d).map (fun p => -(partsToRat p))
  | d => (floatParts d).map partsToRat

/-- One data record of cli (main.py lines 42-45): split on the delimiter into
exactly two fields, parse an int then a float; anything else fails. -/
def parseRecord (delim : Char) (line : String) : Option (ℤ × ℚ) :=
  match splitOnChar delim line.toList with
  | [a, b] =>
    match parsePyInt a, parsePyFloat b with
    | some i, some q => some (i, q)
    | _, _ => none
  | _ => none

/-- The acquisition loop of cli: parse the records in order into the two
parallel sequences; the first malformed record aborts the whole run. -/
def cliParse (delim : Char) : List String → Option (List ℤ × List ℚ)
  | [] => some ([], [])
  | l :: ls =>
    match parseRecord delim l, cliParse delim ls with
    | some (i, q), some (xs, ys) => some (i :: xs, q :: ys)
    | _, _ => none

/-- Truncation toward zero, as the C-style integer cast dtype=int applies to
each floating-point linspace value. -/
def ratTrunc (q : ℚ) : ℤ :=
  if 0 ≤ q then ⌊q⌋ else ⌈q⌉

/-- Fold-based minimum with a default for the empty list; np.min and the
Python builtin min agree with this on nonempty numeric data. -/
def npMin {α : Type} [Min α] (d : α) : List α → α
  | [] => d
  | a :: l => l.foldl min a

/-- Fold-based maximum with a default for the empty list, mirroring np.max. -/
def npMax {α : Type} [Max α] (d : α) : List α → α
  | [] => d
  | a :: l => l.foldl max a

/-- np.linspace lo hi n with the inclusive endpoint, over exact rationals. -/
def linspace (lo hi : ℚ) (n : ℕ) : List ℚ :=
  if n = 1 then [lo]
  else (List.range n).map (fun i => lo + (i : ℚ) * (hi - lo) / ((n : ℚ) - 1))

/-- The resampling grid of complexity_phase (main.py line 74): linspace from
min size to max size, each value cast to an integer. -/
def xxGrid (x : List ℤ) (samples : ℕ) : List ℤ :=
  (linspace ((npMin 0 x : ℤ) : ℚ) ((npMax 0 x : ℤ) : ℚ) samples).map ratTrunc

/-- Index of the first entry strictly above the key, or the length of the
list when there is none: the loop body of numpy's linear interval search. -/
def scanIdx (key : ℚ) : List ℚ → ℕ
  | [] => 0
  | v :: t => if key < v then 0 else scanIdx key t + 1

/-- One interpolated value of np.interp(t, xp, fp), following numpy's
arr_interp: clamp to fp[len-1] above the last sample point and to fp[0]
below the first one; otherwise find the interval index j by numpy's linear
scan from position 1 (taken verbatim for length at most 4, and extensionally
equal to its guess-based binary search whenever xp is ascending, the only
regime numpy defines), reuse fp[j] at an exact hit or at the last position,
and apply the slope formula on interval j elsewhere. -/
def npInterpAt (xp fp : List ℚ) (t : ℚ) : ℚ :=
  if xp.getD (xp.length - 1) 0 < t then fp.getD (fp.length - 1) 0
  else if t < xp.getD 0 0 then fp.getD 0 0
  else
    let j := scanIdx t (xp.drop 1)
    if j = xp.length - 1 then fp.getD j 0
    else if xp.getD j 0 = t then fp.getD j 0
    else
      (fp.getD (j + 1) 0 - fp.getD j 0) / (xp.getD (j + 1) 0 - xp.getD j 0) * (t - xp.getD j 0) +
        fp.getD j 0

/-- np.interp over a list of query points. -/
def npInterp (xq xp fp : List ℚ) : List ℚ :=
  xq.map (npInterpAt xp fp)

/-- The resampled durations yy of complexity_phase (main.py line 75). -/
def yyList (x : List ℤ) (y : List ℚ) (samples : ℕ) : List ℚ :=
  npInterp ((xxGrid x samples).map (fun i => (i : ℚ))) (x.map (fun i => (i : ℚ))) y

/-- The normalized durations of complexity_phase (main.py lines 77-80):
subtract the raw minimum min(y), divide by the resampled range max(yy) -
min(yy). -/
def normY (x : List ℤ) (y : List ℚ) (samples : ℕ) : List ℚ :=
  let yy := yyList x y samples
  yy.map (fun t => (t - npMin 0 y) / (npMax 0 yy - npMin 0 yy))

/-- The complexity dict of complexity_phase (main.py lines 84-93): catalog
order, each label with its normalized shape function of the abstract index
and its normalization constant, over exact reals. -/
noncomputable def complexityTable (samples : ℕ) : List (String × (ℝ → ℝ) × ℝ) :=
  [(r"O(1)", fun _ => 1, 2),
   (r"O(log n)", fun v => Real.logb 2 v, Real.logb 2 (samples : ℝ)),
   (r"O(n)", fun v => v, (samples : ℝ)),
   (r"O(n log n)", fun v => v * Real.logb 2 v, (samples : ℝ) * Real.logb 2 (samples : ℝ)),
   (r"O(n^2)", fun v => v ^ 2, (samples : ℝ) ^ 2),
   (r"O(n^2 log n)", fun v => v ^ 2 * Real.logb 2 v, (samples : ℝ) ^ 2 * Real.logb 2 (samples : ℝ)),
   (r"O(n^3)", fun v => v ^ 3, (samples : ℝ) ^ 3),
   (r"O(2^n)", fun v => (2 : ℝ) ^ v, (2 : ℝ) ^ (samples : ℝ))]

/-- The eight catalog labels in declared iteration order. -/
def catalogLabels : List String :=
  [r"O(1)", r"O(log n)", r"O(n)", r"O(n log n)", r"O(n^2)", r"O(n^2 log n)", r"O(n^3)", r"O(2^n)"]

/-- Junk entry used as the default of positional access into the catalog. -/
noncomputable def catalogDefault : String × (ℝ → ℝ) × ℝ :=
  (r"", fun _ => 0, 0)

/-- Sum of squared residuals of one candidate (main.py line 97): the shape is
evaluated at the abstract indices 1..samples, rescaled by its constant, and
compared against the normalized durations. -/
noncomputable def ssr (ny : List ℚ) (f : ℝ → ℝ) (coef : ℝ) (samples : ℕ) : ℝ :=
  ((List.range samples).map
    (fun i => (((ny.getD i 0 : ℚ) : ℝ) - f ((i + 1 : ℕ) : ℝ) / coef) ^ 2)).sum

/-- The res list of complexity_phase (main.py lines 95-99): catalog labels in
iteration order, paired with their sum of squared residuals. -/
noncomputable def residualList (x : List ℤ) (y : List ℚ) (samples : ℕ) : List (String × ℝ) :=
  (complexityTable samples).map (fun p => (p.1, ssr (normY x y samples) p.2.1 p.2.2 samples))

/-- Junk pair used as the default of positional access into the residual
list. -/
noncomputable def residualDefault : String × ℝ :=
  (r"", 0)

/-- Python min with a key function: the fold keeps the current best and
replaces it only when a later element is strictly smaller, so the first
minimum wins; none on the empty list. -/
noncomputable def pyMin {α : Type} (key : α → ℝ) : List α → Option α
  | [] => none
  | a :: l => some (l.foldl (fun best e => if key e < key best then e else best) a)

/-- Selection rule in the words of the specification (section 4.2 step 5):
return the element with the minimum key, ties broken in favour of the
earliest element of the list. -/
noncomputable def specFirstMin {α : Type} (key : α → ℝ) : List α → Option α
  | [] => none
  | a :: l =>
    match specFirstMin key l with
    | none => some a
    | some b => if key a ≤ key b then some a else some b

/-- complexity_phase (main.py lines 59-100): none models the exceptions numpy
raises on an empty sample set, mismatched lengths or an empty resampling
grid; otherwise the first label minimizing the sum of squared residuals is
returned. -/
noncomputable def complexity_phase (x : List ℤ) (y : List ℚ) (samples : ℕ) : Option String :=
  if x = [] ∨ y = [] ∨ x.length ≠ y.length ∨ samples = 0 then none
  else (pyMin Prod.snd (residualList x y samples)).map Prod.fst

/-- The raw regression function table (main.py lines 8-17): each label maps
to its fitting function applied to a point and the fitted parameter list;
none models the KeyError of an unknown label and the TypeError of a
parameter list whose arity does not match the lambda. -/
noncomputable def REGRESSION_FUNCTIONS : String → Option (ℝ → List ℝ → Option ℝ)
  | "O(1)" => some (fun _ p => match p with | [a] => some a | _ => none)
  | "O(log n)" => some (fun x p => match p with | [a, b] => some (a + b * Real.logb 2 x) | _ => none)
  | "O(n)" => some (fun x p => match p with | [a, b] => some (a + b * x) | _ => none)
  | "O(n log n)" => some (fun x p => match p with | [a, b] => some (a + b * x * Real.logb 2 x) | _ => none)
  | "O(n^2)" => some (fun x p => match p with | [a, b] => some (a + b * x ^ 2) | _ => none)
  | "O(n^2 log n)" => some (fun x p => match p with | [a, b] => some (a + b * x ^ 2 * Real.logb 2 x) | _ => none)
  | "O(n^3)" => some (fun x p => match p with | [a, b] => some (a + b * x ^ 3) | _ => none)
  | "O(2^n)" => some (fun x p => match p with | [a, b] => some (a + b * (2 : ℝ) ^ x) | _ => none)
  | _ => none

/-- predict_phase (main.py lines 125-137): look up the raw function of the
label and evaluate it at the query point with the fitted parameters. -/
noncomputable def predict_phase (label : String) (x : ℝ) (popt : List ℝ) : Option ℝ :=
  match REGRESSION_FUNCTIONS label with
  | none => none
  | some f => f x popt

/-- The verbose helper (main.py lines 140-147): emits its message exactly
when the verbosity level reached the required level, and touches nothing
else. -/
def verbose (verbosity level : ℕ) (msg : String) : List String :=
  if level ≤ verbosity then [msg] else []

/-- The classification front of cli: parse the records, then run
complexity_phase on the two parallel sequences. -/
noncomputable def classifyLines (delim : Char) (lines : List String) (sampleCount : ℕ) :
    Option String :=
  (cliParse delim lines).bind (fun p => complexity_phase p.1 p.2 sampleCount)

/-- The cli pipeline (main.py lines 30-56) with scipy's curve_fit abstracted
as the deterministic oracle cf and float formatting abstracted as render:
parse, classify, fit, optionally predict. The first component of the result
is the triple of computed results, the second the printed diagnostics, the
only place the verbosity level is read. -/
noncomputable def cliRun (cf : String → List ℤ → List ℚ → Option (List ℝ))
    (render : ℝ → String) (verbosity : ℕ) (xValue : Option ℤ) (sampleCount : ℕ)
    (delim : Char) (lines : List String) :
    Option ((String × List ℝ × Option ℝ) × List String) :=
  (cliParse delim lines).bind (fun p =>
    let log1 := verbose verbosity 2 (r">>> Phase Data Acquisition <<<") ++
      verbose verbosity 2 (r"SOURCE DATA X: " ++ toString p.1) ++
      verbose verbosity 2 (r"SOURCE DATA Y: " ++ toString p.2)
    (complexity_phase p.1 p.2 sampleCount).bind (fun label =>
      let log2 := log1 ++ verbose verbosity 0 (r"Algorithm Complexity Estimation: " ++ label)
      (cf label p.1 p.2).bind (fun popt =>
        let log3 := log2 ++ verbose verbosity 0
          (r"Regression Function: " ++ String.intercalate (r", ") (popt.map render))
        xValue.elim (some ((label, popt, none), log3)) (fun xv =>
          (predict_phase label ((xv : ℤ) : ℝ) popt).map (fun pv =>
            ((label, popt, some pv),
              log3 ++ verbose verbosity 0 (r"Predicted Execution Time: " ++ render pv)))))))

theorem foldl_min_eq (key : α → ℝ) (t : List α) : ∀ a : α,
    some (t.foldl (fun best e => if key e < key best then e else best) a) =
      specFirstMin key (a :: t) := by
  induction t with
  | nil => intro a; rfl
  | cons b t ih =>
    intro a
    simp only [List.foldl]
    rw [ih (if key b < key a then b else a)]
    cases hS : specFirstMin key t with
    | none =>
      simp only [specFirstMin, hS]
      split_ifs <;> first | rfl | linarith
    | some m =>
      by_cases hbm : key b ≤ key m
      · simp only [specFirstMin, hS, hbm, if_true]
        split_ifs <;> first | rfl | linarith
      · simp only [specFirstMin, hS, hbm, if_false]
        split_ifs <;> first | rfl | linarith

theorem pyMin_eq_specFirstMin (key : α → ℝ) (l : List α) :
    pyMin key l = specFirstMin key l := by
  cases l with
  | nil => rfl
  | cons a t => exact foldl_min_eq key t a

theorem specFirstMin_none_iff (key : α → ℝ) (l : List α) :
    specFirstMin key l = none ↔ l = [] := by
  cases l with
  | nil => simp [specFirstMin]
  | cons a t =>
    simp only [specFirstMin]
    cases hS : specFirstMin key t with
    | none => simp
    | some m =>
      by_cases hab : key a ≤ key m <;> simp [hab]

theorem specFirstMin_index (key : α → ℝ) (d : α) : ∀ (l : List α) (m : α),
    specFirstMin key l = some m →
    ∃ i, i < l.length ∧ l.getD i d = m ∧
      (∀ j, j < l.length → key m ≤ key (l.getD j d)) ∧
      ∀ j, j < i → key m < key (l.getD j d) := by
  intro l
  induction l with
  | nil => intro m h; simp [specFirstMin] at h
  | cons a t ih =>
    intro m h
    simp only [specFirstMin] at h
    cases hS : specFirstMin key t with
    | none =>
      rw [hS] at h
      obtain rfl : t = [] := (specFirstMin_none_iff key t).mp hS
      simp only [Option.some.injEq] at h
      subst h
      refine ⟨0, by simp, by simp, ?_, ?_⟩
      · intro j hj
        simp only [List.length_singleton, Nat.lt_one_iff] at hj
        subst hj
        simp
      · intro j hj
        exact absurd hj (Nat.not_lt_zero j)
    | some b =>
      rw [hS] at h
      obtain ⟨i, hi, hget, hmin, hfirst⟩ := ih b hS
      by_cases hab : key a ≤ key b
      · simp only [hab, if_true, Option.some.injEq] at h
        subst h
        refine ⟨0, by simp, by simp, ?_, ?_⟩
        · intro j hj
          cases j with
          | zero => simp
          | succ k =>
            simp only [List.getD_cons_succ]
            have := hmin k (by simpa using hj)
            linarith
        · intro j hj
          exact absurd hj (Nat.not_lt_zero j)
      · simp only [hab, if_false, Option.some.injEq] at h
        subst h
        refine ⟨i + 1, by simpa using hi, by simpa using hget, ?_, ?_⟩
        · intro j hj
          cases j with
          | zero =>
            simp only [List.getD_cons_zero]
            linarith
          | succ k =>
            simp only [List.getD_cons_succ]
            exact hmin k (by simpa using hj)
        · intro j hj
          cases j with
          | zero =>
            simp only [List.getD_cons_zero]
            linarith
          | succ k =>
            simp only [List.getD_cons_succ]
            exact hfirst k (by omega)

theorem cliParse_none_of_bad (delim : Char) : ∀ (lines : List String) (line : String),
    line ∈ lines → parseRecord delim line = none → cliParse delim lines = none := by
  intro lines
  induction lines with
  | nil => intro line h; simp at h
  | cons l ls ih =>
    intro line hmem hbad
    simp only [cliParse]
    rcases List.mem_cons.mp hmem with rfl | hmem2
    · rw [hbad]
    · rw [ih line hmem2 hbad]
      cases hpr : parseRecord delim l with
      | none => rfl
      | some p =>
        obtain ⟨i, q⟩ := p
        rfl

/-- C8: any record that does not split into exactly two fields on the
delimiter, or whose first field is not an integer literal or second field
not a float literal, aborts the whole run with no result: parsing happens
before classification and fitting, and a single bad record makes the whole
pipeline return none, so nothing is skipped and nothing is partially
processed. -/
theorem c8_parse_error_aborts (cf : String → List ℤ → List ℚ → Option (List ℝ))
    (render : ℝ → String) (v : ℕ) (xv : Option ℤ) (sc : ℕ) (delim : Char)
    (lines : List String) (line : String)
    (hmem : line ∈ lines) (hbad : parseRecord delim line = none) :
    cliRun cf render v xv sc delim lines = none := by
  have h := cliParse_none_of_bad delim lines line hmem hbad
  simp only [cliRun, h, Option.none_bind]

/-- Witness for C8 at a concrete malformed input. -/
theorem c8_parse_error_aborts_witness :
    (r"oops") ∈ [r"1 0.5", r"oops"] ∧ parseRecord ' ' (r"oops") = none ∧
      cliRun (fun _ _ _ => none) (fun _ => r"") 0 none 4 ' ' [r"1 0.5", r"oops"] = none := by
  refine ⟨by simp, by decide, ?_⟩
  exact c8_parse_error_aborts (fun _ _ _ => none) (fun _ => r"") 0 none 4 ' '
    [r"1 0.5", r"oops"] (r"oops") (by simp) (by decide)

/-- C9: the verbosity level gates only the diagnostic output of the run; the
computed results, namely the chosen complexity label, the fitted parameters
and the predicted value, are identical across any two verbosity levels. -/
theorem c9_verbosity_no_effect (cf : String → List ℤ → List ℚ → Option (List ℝ))
    (render : ℝ → String) (v1 v2 : ℕ) (xv : Option ℤ) (sc : ℕ) (delim : Char)
    (lines : List String) :
    (cliRun cf render v1 xv sc delim lines).map Prod.fst =
      (cliRun cf render v2 xv sc delim lines).map Prod.fst := by
  simp only [cliRun]
  cases cliParse delim lines with
  | none => rfl
  | some p =>
    simp only [Option.some_bind]
    cases complexity_phase p.1 p.2 sc with
    | none => rfl
    | some label =>
      simp only [Option.some_bind]
      cases cf label p.1 p.2 with
      | none => rfl
      | some popt =>
        simp only [Option.some_bind]
        cases xv with
        | none => rfl
        | some q =>
          simp only [Option.elim_some]
          cases predict_phase label ((q : ℤ) : ℝ) popt with
          | none => rfl
          | some pv => rfl

/-- C10: the raw function of the constant class takes only the offset
parameter, so predict_phase for O(1) returns the single fitted parameter
unchanged at every query point. -/
theorem c10_predict_O1_ignores_x (x a : ℝ) :
    predict_phase (r"O(1)") x [a] = some a := rfl

theorem getD_map_lt {α β : Type} (f : α → β) (l : List α) (i : ℕ) (hi : i < l.length)
    (d : β) (d2 : α) : (l.map f).getD i d = f (l.getD i d2) := by
  induction l generalizing i with
  | nil => simp at hi
  | cons a t ih =>
    cases i with
    | zero => simp
    | succ n =>
      simp only [List.map, List.getD_cons_succ]
      exact ih n (by simpa using hi)

/-- C1 counterexample: for the O(1) entry of the catalog, the normalization
constant is 2.0 while the shape is identically 1, so the constant is not the
shape evaluated at the maximum sample index (here sample_count equal 4), and
the rescaled shape equals one half, not 1, at the final index. -/
theorem c1_counterexample :
    ((complexityTable 4).getD 0 catalogDefault).2.2 ≠
      ((complexityTable 4).getD 0 catalogDefault).2.1 ((4 : ℕ) : ℝ) := by
  simp only [complexityTable, List.getD_cons_zero]
  norm_num

/-- C1 amended: for the seven catalog entries other than O(1), at positions 1
through 7 of the catalog, the normalization constant equals the normalized
shape evaluated at the maximum sample index sample_count; the O(1) entry at
position 0 instead carries the constant 2.0 against a shape identically 1. -/
theorem c1_amended (samples : ℕ) (i : ℕ) (h1 : 1 ≤ i) (h7 : i ≤ 7) :
    ((complexityTable samples).getD i catalogDefault).2.2 =
      ((complexityTable samples).getD i catalogDefault).2.1 ((samples : ℕ) : ℝ) := by
  interval_cases i <;>
    simp [complexityTable, List.getD_cons_zero, List.getD_cons_succ]

/-- Witness for C1 at the O(n) entry with sample_count equal 4. -/
theorem c1_amended_witness :
    ((complexityTable 4).getD 2 catalogDefault).2.2 =
      ((complexityTable 4).getD 2 catalogDefault).2.1 ((4 : ℕ) : ℝ) :=
  c1_amended 4 2 (by norm_num) (by norm_num)

/-- C5: each normalized duration is the resampled value minus the minimum of
the raw durations, divided by the difference between the maximum and the
minimum of the resampled values. -/
theorem c5_normalization_formula (x : List ℤ) (y : List ℚ) (samples : ℕ) (i : ℕ)
    (hi : i < (yyList x y samples).length) :
    (normY x y samples).getD i 0 =
      ((yyList x y samples).getD i 0 - npMin 0 y) /
        (npMax 0 (yyList x y samples) - npMin 0 (yyList x y samples)) := by
  simp only [normY]
  exact getD_map_lt _ _ i hi 0 0

/-- Witness for C5 at a concrete sample set and index. -/
theorem c5_normalization_formula_witness :
    (normY [1, 8] [1, 2] 2).getD 1 0 =
      ((yyList [1, 8] [1, 2] 2).getD 1 0 - npMin 0 [1, 2]) /
        (npMax 0 (yyList [1, 8] [1, 2] 2) - npMin 0 (yyList [1, 8] [1, 2] 2)) :=
  c5_normalization_formula [1, 8] [1, 2] 2 1 (by decide)

theorem residualList_map_fst (x : List ℤ) (y : List ℚ) (s : ℕ) :
    (residualList x y s).map Prod.fst = catalogLabels := by
  simp [residualList, complexityTable, catalogLabels]

theorem specFirstMin_isSome (key : α → ℝ) (l : List α) (hne : l ≠ []) :
    ∃ m, specFirstMin key l = some m := by
  cases ho : specFirstMin key l with
  | none => exact absurd ((specFirstMin_none_iff key l).mp ho) hne
  | some m => exact ⟨m, rfl⟩

theorem getD_mem_of_lt {α : Type} (l : List α) (i : ℕ) (hi : i < l.length) (d : α) :
    l.getD i d ∈ l := by
  induction l generalizing i with
  | nil => simp at hi
  | cons a t ih =>
    cases i with
    | zero => simp
    | succ n =>
      simp only [List.getD_cons_succ]
      exact List.mem_cons_of_mem a (ih n (by simpa using hi))

/-- C7: on any nonempty sample set with parallel sequences of equal length
and a positive sample count, the classifier returns exactly one of the eight
catalog labels; on an empty sample set it signals failure by returning none,
the model of the exception numpy raises. -/
theorem c7_total_on_wellformed :
    (∀ (x : List ℤ) (y : List ℚ) (s : ℕ), x ≠ [] → x.length = y.length → s ≠ 0 →
      ∃ l ∈ catalogLabels, complexity_phase x y s = some l) ∧
    (∀ (y : List ℚ) (s : ℕ), complexity_phase [] y s = none) := by
  constructor
  · intro x y s hx hl hs
    have hy : y ≠ [] := by
      intro h
      subst h
      exact hx (List.length_eq_zero.mp (by simpa using hl))
    have hguard : ¬(x = [] ∨ y = [] ∨ x.length ≠ y.length ∨ s = 0) := by
      push_neg
      exact ⟨hx, hy, hl, hs⟩
    have hne : residualList x y s ≠ [] := by
      simp [residualList, complexityTable]
    obtain ⟨m, hm⟩ := specFirstMin_isSome Prod.snd (residualList x y s) hne
    obtain ⟨i, hi, hget, _, _⟩ := specFirstMin_index Prod.snd residualDefault _ m hm
    refine ⟨m.1, ?_, ?_⟩
    · have hmem : m ∈ residualList x y s := hget ▸ getD_mem_of_lt _ i hi _
      have := List.mem_map_of_mem Prod.fst hmem
      rwa [residualList_map_fst] at this
    · simp only [complexity_phase, if_neg hguard]
      rw [pyMin_eq_specFirstMin, hm]
      rfl
  · intro y s
    simp [complexity_phase]

/-- Witness for C7 at a concrete valid sample set. -/
theorem c7_total_on_wellformed_witness :
    ∃ l ∈ catalogLabels, complexity_phase [1, 8] [1, 2] 2 = some l :=
  c7_total_on_wellformed.1 [1, 8] [1, 2] 2 (by simp) (by simp) (by norm_num)

theorem getD_map_mul (c : ℚ) (l : List ℚ) (i : ℕ) :
    (l.map (fun t => c * t)).getD i 0 = c * l.getD i 0 := by
  induction l generalizing i with
  | nil => simp
  | cons a t ih =>
    cases i with
    | zero => simp
    | succ n => simpa using ih n

theorem npInterpAt_mul (c : ℚ) (xp fp : List ℚ) (t : ℚ) :
    npInterpAt xp (fp.map (fun v => c * v)) t = c * npInterpAt xp fp t := by
  simp only [npInterpAt, List.length_map]
  split_ifs <;> (simp only [getD_map_mul]; try ring)

theorem mul_min_rat (c a b : ℚ) (hc : 0 ≤ c) : c * min a b = min (c * a) (c * b) := by
  rcases le_total a b with h | h
  · rw [min_eq_left h, min_eq_left (mul_le_mul_of_nonneg_left h hc)]
  · rw [min_eq_right h, min_eq_right (mul_le_mul_of_nonneg_left h hc)]

theorem mul_max_rat (c a b : ℚ) (hc : 0 ≤ c) : c * max a b = max (c * a) (c * b) := by
  rcases le_total a b with h | h
  · rw [max_eq_right h, max_eq_right (mul_le_mul_of_nonneg_left h hc)]
  · rw [max_eq_left h, max_eq_left (mul_le_mul_of_nonneg_left h hc)]

theorem foldl_min_mul (c : ℚ) (hc : 0 ≤ c) : ∀ (l : List ℚ) (a : ℚ),
    (l.map (fun v => c * v)).foldl min (c * a) = c * l.foldl min a := by
  intro l
  induction l with
  | nil => intro a; rfl
  | cons b t ih =>
    intro a
    simp only [List.map, List.foldl]
    rw [← mul_min_rat c a b hc, ih (min a b)]

theorem foldl_max_mul (c : ℚ) (hc : 0 ≤ c) : ∀ (l : List ℚ) (a : ℚ),
    (l.map (fun v => c * v)).foldl max (c * a) = c * l.foldl max a := by
  intro l
  induction l with
  | nil => intro a; rfl
  | cons b t ih =>
    intro a
    simp only [List.map, List.foldl]
    rw [← mul_max_rat c a b hc, ih (max a b)]

theorem npMin_map_mul (c : ℚ) (hc : 0 ≤ c) (l : List ℚ) :
    npMin 0 (l.map (fun v => c * v)) = c * npMin 0 l := by
  cases l with
  | nil => simp [npMin]
  | cons a t =>
    simp only [List.map, npMin]
    exact foldl_min_mul c hc t a

theorem npMax_map_mul (c : ℚ) (hc : 0 ≤ c) (l : List ℚ) :
    npMax 0 (l.map (fun v => c * v)) = c * npMax 0 l := by
  cases l with
  | nil => simp [npMax]
  | cons a t =>
    simp only [List.map, npMax]
    exact foldl_max_mul c hc t a

theorem yyList_mul (c : ℚ) (x : List ℤ) (y : List ℚ) (s : ℕ) :
    yyList x (y.map (fun v => c * v)) s = (yyList x y s).map (fun v => c * v) := by
  simp only [yyList, npInterp, List.map_map]
  exact List.map_congr_left (fun a _ => npInterpAt_mul c _ y a)

theorem normY_mul (c : ℚ) (hc : 0 < c) (x : List ℤ) (y : List ℚ) (s : ℕ) :
    normY x (y.map (fun v => c * v)) s = normY x y s := by
  simp only [normY, yyList_mul c x y s, npMin_map_mul c hc.le, npMax_map_mul c hc.le,
    List.map_map]
  refine List.map_congr_left (fun a _ => ?_)
  simp only [Function.comp]
  rw [← mul_sub, ← mul_sub, mul_div_mul_left _ _ (ne_of_gt hc)]

/-- C6: rescaling every duration by one positive constant leaves the chosen
complexity label unchanged, because the min-max normalization cancels the
constant exactly. -/
theorem c6_scaling_invariance (x : List ℤ) (y : List ℚ) (s : ℕ) (c : ℚ) (hc : 0 < c) :
    complexity_phase x (y.map (fun t => c * t)) s = complexity_phase x y s := by
  have hguard : (x = [] ∨ y.map (fun t => c * t) = [] ∨
      x.length ≠ (y.map (fun t => c * t)).length ∨ s = 0) ↔
      (x = [] ∨ y = [] ∨ x.length ≠ y.length ∨ s = 0) := by
    simp
  simp only [complexity_phase, residualList, normY_mul c hc]
  exact if_congr hguard rfl rfl

/-- Witness for C6: doubling the durations of a concrete sample set. -/
theorem c6_scaling_invariance_witness :
    complexity_phase [1, 8] (([1, 2] : List ℚ).map (fun t => 2 * t)) 2 =
      complexity_phase [1, 8] [1, 2] 2 :=
  c6_scaling_invariance [1, 8] [1, 2] 2 2 (by norm_num)

/-- C4: on any valid sample set the classifier returns the label at some
position i of the residual list, which pairs the catalog labels in declared
iteration order with their sums of squared residuals; that position attains
the minimal residual, and every strictly earlier position has a strictly
larger residual, so ties are broken in favour of the earliest catalog
entry. -/
theorem c4_argmin_first (x : List ℤ) (y : List ℚ) (s : ℕ)
    (hx : x ≠ []) (hl : x.length = y.length) (hs : s ≠ 0) :
    ∃ i, i < (residualList x y s).length ∧
      complexity_phase x y s = some (((residualList x y s).getD i residualDefault).1) ∧
      (∀ j, j < (residualList x y s).length →
        ((residualList x y s).getD i residualDefault).2 ≤
          ((residualList x y s).getD j residualDefault).2) ∧
      ∀ j, j < i →
        ((residualList x y s).getD i residualDefault).2 <
          ((residualList x y s).getD j residualDefault).2 := by
  have hy : y ≠ [] := by
    intro h
    subst h
    exact hx (List.length_eq_zero.mp (by simpa using hl))
  have hguard : ¬(x = [] ∨ y = [] ∨ x.length ≠ y.length ∨ s = 0) := by
    push_neg
    exact ⟨hx, hy, hl, hs⟩
  have hne : residualList x y s ≠ [] := by
    simp [residualList, complexityTable]
  obtain ⟨m, hm⟩ := specFirstMin_isSome Prod.snd (residualList x y s) hne
  obtain ⟨i, hi, hget, hmin, hfirst⟩ := specFirstMin_index Prod.snd residualDefault _ m hm
  refine ⟨i, hi, ?_, ?_, ?_⟩
  · simp only [complexity_phase, if_neg hguard]
    rw [pyMin_eq_specFirstMin, hm, hget]
    rfl
  · intro j hj
    rw [hget]
    exact hmin j hj
  · intro j hj
    rw [hget]
    exact hfirst j hj

/-- Witness for C4 at a concrete valid sample set. -/
theorem c4_argmin_first_witness :
    ∃ i, i < (residualList [1, 8] [1, 2] 2).length ∧
      complexity_phase [1, 8] [1, 2] 2 =
        some (((residualList [1, 8] [1, 2] 2).getD i residualDefault).1) ∧
      (∀ j, j < (residualList [1, 8] [1, 2] 2).length →
        ((residualList [1, 8] [1, 2] 2).getD i residualDefault).2 ≤
          ((residualList [1, 8] [1, 2] 2).getD j residualDefault).2) ∧
      ∀ j, j < i →
        ((residualList [1, 8] [1, 2] 2).getD i residualDefault).2 <
          ((residualList [1, 8] [1, 2] 2).getD j residualDefault).2 :=
  c4_argmin_first [1, 8] [1, 2] 2 (by simp) (by simp) (by norm_num)

theorem logb_two_two : Real.logb 2 2 = 1 :=
  Real.logb_self_eq_one (by norm_num)

theorem logb_two_four : Real.logb 2 4 = 2 := by
  rw [show (4 : ℝ) = 2 ^ (2 : ℕ) by norm_num, Real.logb_pow, logb_two_two]
  norm_num

theorem logb_two_three_lb : (3 / 2 : ℝ) ≤ Real.logb 2 3 := by
  have hl2 : (0 : ℝ) < Real.log 2 := Real.log_pos (by norm_num)
  rw [Real.logb, le_div_iff₀ hl2]
  have h89 : Real.log 8 ≤ Real.log 9 :=
    (Real.log_le_log_iff (by norm_num) (by norm_num)).mpr (by norm_num)
  have e8 : Real.log 8 = 3 * Real.log 2 := by
    rw [show (8 : ℝ) = 2 ^ (3 : ℕ) by norm_num, Real.log_pow]
    norm_num
  have e9 : Real.log 9 = 2 * Real.log 3 := by
    rw [show (9 : ℝ) = 3 ^ (2 : ℕ) by norm_num, Real.log_pow]
    norm_num
  linarith

theorem logb_two_three_ub : Real.logb 2 3 ≤ 8 / 5 := by
  have hl2 : (0 : ℝ) < Real.log 2 := Real.log_pos (by norm_num)
  rw [Real.logb, div_le_iff₀ hl2]
  have h : Real.log 243 ≤ Real.log 256 :=
    (Real.log_le_log_iff (by norm_num) (by norm_num)).mpr (by norm_num)
  have e3 : Real.log 243 = 5 * Real.log 3 := by
    rw [show (243 : ℝ) = 3 ^ (5 : ℕ) by norm_num, Real.log_pow]
    norm_num
  have e2 : Real.log 256 = 8 * Real.log 2 := by
    rw [show (256 : ℝ) = 2 ^ (8 : ℕ) by norm_num, Real.log_pow]
    norm_num
  linarith

theorem pyMin_eight_pos1 (a1 a2 a3 a4 a5 a6 a7 a8 : String × ℝ)
    (h2 : ¬ a2.2 < a1.2) (h3 : ¬ a3.2 < a1.2) (h4 : ¬ a4.2 < a1.2) (h5 : ¬ a5.2 < a1.2)
    (h6 : ¬ a6.2 < a1.2) (h7 : ¬ a7.2 < a1.2) (h8 : ¬ a8.2 < a1.2) :
    pyMin Prod.snd [a1, a2, a3, a4, a5, a6, a7, a8] = some a1 := by
  simp only [pyMin, List.foldl]
  rw [if_neg h2, if_neg h3, if_neg h4, if_neg h5, if_neg h6, if_neg h7, if_neg h8]

theorem pyMin_eight_pos2 (a1 a2 a3 a4 a5 a6 a7 a8 : String × ℝ)
    (h2 : a2.2 < a1.2) (h3 : ¬ a3.2 < a2.2) (h4 : ¬ a4.2 < a2.2) (h5 : ¬ a5.2 < a2.2)
    (h6 : ¬ a6.2 < a2.2) (h7 : ¬ a7.2 < a2.2) (h8 : ¬ a8.2 < a2.2) :
    pyMin Prod.snd [a1, a2, a3, a4, a5, a6, a7, a8] = some a2 := by
  simp only [pyMin, List.foldl]
  rw [if_pos h2, if_neg h3, if_neg h4, if_neg h5, if_neg h6, if_neg h7, if_neg h8]

theorem pyMin_eight_pos4 (a1 a2 a3 a4 a5 a6 a7 a8 : String × ℝ)
    (h2 : a2.2 < a1.2) (h3 : ¬ a3.2 < a2.2) (h4 : a4.2 < a2.2) (h5 : ¬ a5.2 < a4.2)
    (h6 : ¬ a6.2 < a4.2) (h7 : ¬ a7.2 < a4.2) (h8 : ¬ a8.2 < a4.2) :
    pyMin Prod.snd [a1, a2, a3, a4, a5, a6, a7, a8] = some a4 := by
  simp only [pyMin, List.foldl]
  rw [if_pos h2, if_neg h3, if_pos h4, if_neg h5, if_neg h6, if_neg h7, if_neg h8]

theorem normY_perm_eval : normY [8, 1, 2, 4] [4, 1/2, 1, 2] 2 = [7/4, 3/4] := by
  norm_num [normY, yyList, npInterp, npInterpAt, scanIdx, List.getD_cons_zero,
    List.getD_cons_succ, xxGrid, linspace, npMin, npMax, min_def, max_def, ratTrunc,
    List.range_succ]

theorem normY_sorted_eval : normY [1, 2, 4, 8] [1/2, 1, 2, 4] 2 = [0, 1] := by
  norm_num [normY, yyList, npInterp, npInterpAt, scanIdx, List.getD_cons_zero,
    List.getD_cons_succ, xxGrid, linspace, npMin, npMax, min_def, max_def, ratTrunc,
    List.range_succ]

/-- C3: evaluation of the classifier at the failing input. The four samples
(1, 0.5), (2, 1), (4, 2), (8, 4) supplied in the permuted size order
8, 1, 2, 4 classify as O(1), while the same pairs sorted by size classify as
O(log n): np.interp silently assumes ascending sizes, so the label depends
on the order of the records. -/
theorem c3_order_dependence :
    complexity_phase [8, 1, 2, 4] [4, 1/2, 1, 2] 2 = some (r"O(1)") ∧
      complexity_phase [1, 2, 4, 8] [1/2, 1, 2, 4] 2 = some (r"O(log n)") := by
  constructor
  · have hg : complexity_phase [8, 1, 2, 4] [4, 1/2, 1, 2] 2 =
        (pyMin Prod.snd (residualList [8, 1, 2, 4] [4, 1/2, 1, 2] 2)).map Prod.fst := by
      simp [complexity_phase]
    rw [hg]
    simp only [residualList, complexityTable, List.map, normY_perm_eval]
    rw [pyMin_eight_pos1 _ _ _ _ _ _ _ _ ?h2 ?h3 ?h4 ?h5 ?h6 ?h7 ?h8]
    · rfl
    all_goals
      simp only [ssr, show List.range 2 = [0, 1] from rfl, List.map_cons, List.map_nil,
        List.sum_cons, List.sum_nil, List.getD_cons_zero, List.getD_cons_succ]
      norm_num [Real.logb_one, logb_two_two, Real.rpow_natCast]
  · have hg : complexity_phase [1, 2, 4, 8] [1/2, 1, 2, 4] 2 =
        (pyMin Prod.snd (residualList [1, 2, 4, 8] [1/2, 1, 2, 4] 2)).map Prod.fst := by
      simp [complexity_phase]
    rw [hg]
    simp only [residualList, complexityTable, List.map, normY_sorted_eval]
    rw [pyMin_eight_pos2 _ _ _ _ _ _ _ _ ?g2 ?g3 ?g4 ?g5 ?g6 ?g7 ?g8]
    · rfl
    all_goals
      simp only [ssr, show List.range 2 = [0, 1] from rfl, List.map_cons, List.map_nil,
        List.sum_cons, List.sum_nil, List.getD_cons_zero, List.getD_cons_succ]
      norm_num [Real.logb_one, logb_two_two, Real.rpow_natCast]

theorem cliParse_linear_records :
    cliParse ' ' [r"1 0.5", r"2 1.0", r"4 2.0", r"8 4.0"] =
      some ([1, 2, 4, 8], [1/2, 1, 2, 4]) := by
  have h0 : cliParse ' ' [r"1 0.5", r"2 1.0", r"4 2.0", r"8 4.0"] =
      some ([1, 2, 4, 8],
        [partsToRat (0, 5, 1), partsToRat (1, 0, 1),
          partsToRat (2, 0, 1), partsToRat (4, 0, 1)]) := rfl
  rw [h0]
  norm_num [partsToRat]

theorem normY_linear_four_eval :
    normY [1, 2, 4, 8] [1/2, 1, 2, 4] 4 = [0, 2/7, 4/7, 1] := by
  norm_num [normY, yyList, npInterp, npInterpAt, scanIdx, List.getD_cons_zero,
    List.getD_cons_succ, xxGrid, linspace, npMin, npMax, min_def, max_def, ratTrunc,
    List.range_succ]

theorem complexity_linear_four :
    complexity_phase [1, 2, 4, 8] [1/2, 1, 2, 4] 4 = some (r"O(n log n)") := by
  have hg : complexity_phase [1, 2, 4, 8] [1/2, 1, 2, 4] 4 =
      (pyMin Prod.snd (residualList [1, 2, 4, 8] [1/2, 1, 2, 4] 4)).map Prod.fst := by
    simp [complexity_phase]
  rw [hg]
  simp only [residualList, complexityTable, List.map, normY_linear_four_eval]
  rw [pyMin_eight_pos4 _ _ _ _ _ _ _ _ ?h2 ?h3 ?h4 ?h5 ?h6 ?h7 ?h8]
  · rfl
  all_goals
    simp only [ssr, show List.range 4 = [0, 1, 2, 3] from rfl, List.map_cons, List.map_nil,
      List.sum_cons, List.sum_nil, List.getD_cons_zero, List.getD_cons_succ]
    norm_num [Real.logb_one, logb_two_two, logb_two_four, Real.rpow_natCast]
  all_goals
    nlinarith [logb_two_three_lb, logb_two_three_ub,
      mul_nonneg (sub_nonneg.2 logb_two_three_lb) (sub_nonneg.2 logb_two_three_ub)]

/-- C2 counterexample: the concrete scenario of the specification does not
classify as O(n). With sample_count equal 4 the integer-cast resampling grid
is 1, 3, 5, 8 while the candidate shapes are evaluated on the uniform index
grid 1, 2, 3, 4, so the exactly linear data does not match the linear shape
best. -/
theorem c2_counterexample :
    classifyLines ' ' [r"1 0.5", r"2 1.0", r"4 2.0", r"8 4.0"] 4 ≠ some (r"O(n)") := by
  simp only [classifyLines, cliParse_linear_records, Option.some_bind]
  rw [complexity_linear_four]
  simp

/-- C2 amended: the input records 1 0.5, 2 1.0, 4 2.0, 8 4.0 with the default
space delimiter and sample_count equal 4 classify as O(n log n): its residual
is about 0.0018 against about 0.0053 for the runner-up O(n^2) and about 0.14
for O(n). -/
theorem c2_amended :
    classifyLines ' ' [r"1 0.5", r"2 1.0", r"4 2.0", r"8 4.0"] 4 =
      some (r"O(n log n)") := by
  simp only [classifyLines, cliParse_linear_records, Option.some_bind]
  exact complexity_linear_four
